import Mathlib

/-!
Verification of the benchmark orchestration core of the bunvhd repository
(the page controller in `src/routes/+page.svelte`): the endpoint registry,
the in-place Fisher–Yates shuffle, the fetch measurement function, the run
orchestrator and the averaging aggregator, shallowly embedded in Lean.

Modelling conventions:
* times are exact rationals (the source uses floating-point milliseconds;
  no rounding happens during accumulation);
* JS records keyed by endpoint id become association lists in insertion
  order, looked up with `List.lookup`;
* nullable JS fields become `Option`; `typeof x == "number"` is `= some _`;
* the behaviour of the external `fetch` transport is an explicit input
  (`FetchSpec`), so "for every behaviour of the transport" is a `∀`;
* the JS globals mutated by `runBenchmark` (`benchmarkRuns`, `isLoading`,
  `overallError`, `averageResults`) are collected into a `BenchState`
  record, and the module-level constants (`ENDPOINTS`, `RUN_COUNT`) that
  the source closes over are passed as explicit parameters where a claim
  needs to instantiate them differently.
-/

namespace Bunvhd

/-- `BenchmarkResult` from the page controller. -/
structure BenchmarkResult where
  clientTime : Option ℚ
  serverTime : Option ℚ
  binding : Option String
  error : Option String
  deriving Repr, DecidableEq

/-- `RunResult` from the page controller: one record per round. -/
structure RunResult where
  runId : Nat
  results : List (String × BenchmarkResult)
  deriving Repr, DecidableEq

/-- `AverageResult` from the page controller. -/
structure AverageResult where
  avgClientTime : Option ℚ
  avgServerTime : Option ℚ
  deriving Repr, DecidableEq

/-- An entry of the `ENDPOINTS` registry constant. -/
structure Endpoint where
  id : String
  url : String
  label : String
  description : String
  deriving Repr, DecidableEq

/-- The `ENDPOINTS` registry constant of the page controller. -/
def ENDPOINTS : List Endpoint :=
  [ { id := "hyperdriveCached", url := "/api/cached-query",
      label := "Hyperdrive Cached",
      description := "Query via SvelteKit backend API using Cloudflare Hyperdrive (Cached Connection Pool). Server is local." },
    { id := "hyperdriveNonCached", url := "/api/non-cached-query",
      label := "Hyperdrive Non-Cached",
      description := "Query via SvelteKit backend API using Cloudflare Hyperdrive (Non-Cached Connection Pool). Server is local." },
    { id := "bunNonCached", url := "https://bunvhd-db-eu-east.tripcafe.org/",
      label := "Bun REST Non-Cached",
      description := "Direct query to Bun REST API (Helsinki) with no server-side caching requested." },
    { id := "bunCached", url := "https://bunvhd-db-eu-east.tripcafe.org/?cacheTtl=10",
      label := "Bun REST Cached (10s)",
      description := "Direct query to Bun REST API (Helsinki) requesting server/CDN caching for 10 seconds via Cache-Control header." } ]

/-- The `RUN_COUNT` constant of the page controller. -/
def RUN_COUNT : Nat := 3

/-- The `initialAverageResults` constant: every endpoint mapped to all-null
averages, in registry order. -/
def initialAverageResultsFor (endpoints : List Endpoint) : List (String × AverageResult) :=
  endpoints.map fun ep => (ep.id, { avgClientTime := none, avgServerTime := none })

/-- Running totals of the accumulation loop inside `calculateAverages`
(`totalClientTime`, `validClientCount`, `totalServerTime`,
`validServerCount`). -/
structure Acc where
  totalClientTime : ℚ
  validClientCount : Nat
  totalServerTime : ℚ
  validServerCount : Nat
  deriving Repr, DecidableEq

/-- One iteration of the inner loop of `calculateAverages`: fold the result
looked up for one relevant run into the running totals.  Only results with
`error == null` count; client and server samples are counted
independently. -/
def accumStep (acc : Acc) (r : Option BenchmarkResult) : Acc :=
  match r with
  | none => acc
  | some res =>
    if res.error = none then
      let acc1 :=
        match res.clientTime with
        | some c =>
          { acc with totalClientTime := acc.totalClientTime + c,
                     validClientCount := acc.validClientCount + 1 }
        | none => acc
      match res.serverTime with
      | some s =>
        { acc1 with totalServerTime := acc1.totalServerTime + s,
                    validServerCount := acc1.validServerCount + 1 }
      | none => acc1
    else acc

/-- The per-endpoint body of `calculateAverages`: accumulate over the
relevant runs and divide, yielding `none` for a metric with zero valid
samples. -/
def endpointAverage (relevantRuns : List RunResult) (id : String) : AverageResult :=
  let acc := relevantRuns.foldl (fun a run => accumStep a (run.results.lookup id)) ⟨0, 0, 0, 0⟩
  { avgClientTime :=
      if 0 < acc.validClientCount then
        some (acc.totalClientTime / (acc.validClientCount : ℚ))
      else none,
    avgServerTime :=
      if 0 < acc.validServerCount then
        some (acc.totalServerTime / (acc.validServerCount : ℚ))
      else none }

/-- `calculateAverages` from the page controller.  The source reads the
module globals `benchmarkRuns` and `averageResults` and iterates the
`ENDPOINTS` constant; here those appear as parameters.  If fewer than
`RUN_COUNT` runs exist (or there is no run with `runId ≥ 2`) it returns the
averages unchanged. -/
def calculateAverages (endpoints : List Endpoint) (benchmarkRuns : List RunResult)
    (averageResults : List (String × AverageResult)) : List (String × AverageResult) :=
  if benchmarkRuns.length < RUN_COUNT then averageResults
  else
    let relevantRuns := benchmarkRuns.filter fun run => 2 ≤ run.runId
    if relevantRuns.length = 0 then averageResults
    else endpoints.map fun ep => (ep.id, endpointAverage relevantRuns ep.id)

/-- The qualifying client-time sample an endpoint contributes in one run:
present exactly when the run has an entry for the endpoint, with
`error = none` and a numeric client time. -/
def clientSample (run : RunResult) (id : String) : Option ℚ :=
  match run.results.lookup id with
  | some r => if r.error = none then r.clientTime else none
  | none => none

/-- The qualifying server-time sample an endpoint contributes in one run. -/
def serverSample (run : RunResult) (id : String) : Option ℚ :=
  match run.results.lookup id with
  | some r => if r.error = none then r.serverTime else none
  | none => none

/-- Spec-side definition (from the aggregation contract's words): the
qualifying client-time samples of one endpoint over the rounds with
`runId ≥ 2`. -/
def specClientSamples (runs : List RunResult) (id : String) : List ℚ :=
  (runs.filter fun run => 2 ≤ run.runId).filterMap (clientSample · id)

/-- Spec-side definition: the qualifying server-time samples of one
endpoint over the rounds with `runId ≥ 2`. -/
def specServerSamples (runs : List RunResult) (id : String) : List ℚ :=
  (runs.filter fun run => 2 ≤ run.runId).filterMap (serverSample · id)

/-- Spec-side definition: the mean of a list of samples, `none` when no
qualifying samples exist. -/
def specMean (samples : List ℚ) : Option ℚ :=
  if samples.length = 0 then none else some (samples.sum / (samples.length : ℚ))

/-- The registry of the spec's worked example: endpoints `A` and `B`. -/
def exampleRegistry : List Endpoint :=
  [ { id := "A", url := "/a", label := "A", description := "" },
    { id := "B", url := "/b", label := "B", description := "" } ]

/-- The three rounds of the spec's worked example. -/
def exampleRuns : List RunResult :=
  [ { runId := 1, results :=
        [ ("A", { clientTime := some 50, serverTime := some 10, binding := some "ok", error := none }),
          ("B", { clientTime := some 80, serverTime := some 5, binding := some "ok", error := none }) ] },
    { runId := 2, results :=
        [ ("A", { clientTime := some 40, serverTime := some 8, binding := some "ok", error := none }),
          ("B", { clientTime := some 200, serverTime := none, binding := some "Error", error := some "timeout" }) ] },
    { runId := 3, results :=
        [ ("A", { clientTime := some 45, serverTime := some 9, binding := some "ok", error := none }),
          ("B", { clientTime := some 70, serverTime := some 6, binding := some "ok", error := none }) ] } ]

/-- The parsed JSON body, as far as `measureFetch` inspects it: `timeMs`
is `some` exactly when the field is present with a numeric value,
`binding` is `some` exactly when present with a string value, and `error`
is the body's error field with an absent field collapsed to null (the
source reads it as `jsonResult.error ?? null`). -/
structure ParsedBody where
  timeMs : Option ℚ
  binding : Option String
  error : Option String
  deriving Repr, DecidableEq

/-- The behaviour of one response's body streams: `text` is `none` when
`response.text()` rejects (the source catches that and substitutes
`"Could not read error body"`), `json` is `none` when `response.json()`
fails to parse. -/
structure BodyOutcome where
  text : Option String
  json : Option ParsedBody
  deriving Repr, DecidableEq

/-- The behaviour of the underlying `fetch` transport for one request:
either the promise rejects (network error, DNS failure, ...) with an
error message, or a response arrives with a status, a status text and a
body. -/
inductive FetchOutcome where
  | reject (message : String)
  | response (status : Nat) (statusText : String) (body : BodyOutcome)
  deriving Repr, DecidableEq

/-- One fetch behaviour together with the two wall-clock readings the
function can take: `tHeaders` is `performance.now() - startTime` right
after the response headers arrive, `tCatch` the same difference measured
inside the catch handler. -/
structure FetchSpec where
  outcome : FetchOutcome
  tHeaders : ℚ
  tCatch : ℚ
  deriving Repr, DecidableEq

/-- `response.ok`: HTTP status in the success range 200–299. -/
def statusOk (status : Nat) : Bool := 200 ≤ status && status ≤ 299

/-- `errorText.substring(0, 200)` from the source: the first 200
characters of the body text. -/
def truncate200 (s : String) : String := ⟨s.data.take 200⟩

/-- The `try` block of `measureFetch`: `Except.error` is a thrown JS
error (either a rejection of `fetch` itself or one of the three `throw`
statements), `Except.ok` the successful return. -/
def measureFetchTry (f : FetchSpec) : Except String BenchmarkResult :=
  match f.outcome with
  | .reject message => .error message
  | .response status statusText body =>
    let clientTime := f.tHeaders
    if !(statusOk status) then
      let errorText := body.text.getD "Could not read error body"
      .error ("HTTP " ++ toString status ++ " " ++ statusText ++ ": " ++
        truncate200 errorText)
    else
      match body.json with
      | none => .error "Invalid JSON response received."
      | some jsonResult =>
        match jsonResult.timeMs, jsonResult.binding with
        | some t, some b =>
          .ok { clientTime := some clientTime, serverTime := some t,
                binding := some b, error := jsonResult.error }
        | _, _ =>
          .error "Invalid response structure (missing timeMs or binding)."

/-- `measureFetch` from the page controller: the catch handler converts
every thrown error into an error-shaped `BenchmarkResult`, so the
function always returns a value (`error.message || "Unknown fetch
error"` replaces a falsy message by the default). -/
def measureFetch (f : FetchSpec) : BenchmarkResult :=
  match measureFetchTry f with
  | .ok result => result
  | .error message =>
    { clientTime := some f.tCatch, serverTime := none, binding := some "Error",
      error := some (if message = "" then "Unknown fetch error" else message) }

/-- The destructuring swap
`[array[ci], array[r]] = [array[r], array[ci]]` from `shuffleArray`. -/
def listSwap {α : Type _} (l : List α) (i j : Nat) : List α :=
  match l[i]?, l[j]? with
  | some a, some b => (l.set i b).set j a
  | _, _ => l

/-- The `while (currentIndex !== 0)` loop of `shuffleArray`: at loop
state `ci + 1` the random draw `d` (in the source
`Math.floor(Math.random() * currentIndex)`, hence `0 ≤ d ≤ ci`) is taken
from the head of the draw stream, `currentIndex` is decremented, and
positions `ci` and `d` are swapped. -/
def fyLoop {α : Type _} : List α → Nat → List Nat → List α
  | arr, 0, _ => arr
  | arr, _ + 1, [] => arr
  | arr, ci + 1, d :: ds => fyLoop (listSwap arr ci d) ci ds

/-- `shuffleArray` from the page controller, with the stream of random
index draws made explicit. -/
def shuffleArray {α : Type _} (arr : List α) (ds : List Nat) : List α :=
  fyLoop arr arr.length ds

/-- All the draw sequences the loop can consume for an array of length
`n`: the draw taken at loop state `k` ranges uniformly over `0 .. k-1`.
There are `n !` of them, each equally likely under independent uniform
`Math.random()` draws. -/
def validDraws : Nat → List (List Nat)
  | 0 => [[]]
  | n + 1 => (List.range (n + 1)).flatMap fun d => (validDraws n).map (d :: ·)

/-- The "Pending..." placeholder `BenchmarkResult`. -/
def pendingResult : BenchmarkResult :=
  { clientTime := none, serverTime := none, binding := some "Pending...", error := none }

/-- The placeholder `RunResult` published at the start of a round: every
registered endpoint id mapped to the pending placeholder, in registry
order. -/
def placeholderRecord (endpoints : List Endpoint) (runId : Nat) : RunResult :=
  { runId := runId, results := endpoints.map fun ep => (ep.id, pendingResult) }

/-- The final `RunResult` of round `i` (0-based): the endpoints are
shuffled with this round's draws, each is measured once, and the settled
results are keyed by endpoint id in shuffled order.  `measureFetch` is a
total function in this embedding, so the `Promise.allSettled` branch for
an unexpectedly rejected measurement promise is unreachable. -/
def finalRound (endpoints : List Endpoint) (env : Nat → String → FetchSpec)
    (draws : Nat → List Nat) (i : Nat) : RunResult :=
  let shuffledEndpoints := shuffleArray endpoints (draws i)
  { runId := i + 1,
    results := shuffledEndpoints.map fun ep => (ep.id, measureFetch (env i ep.url)) }

/-- The `for` loop of `runBenchmark` over rounds `i, i+1, ...` with `n`
rounds left, accumulating the published `RunResult`s.  `abort = some (j,
m)` injects an orchestration-fatal exception with message `m` at the
start of round `j` (e.g. a throw from the inter-round delay), modelling
the only way the source's outer `try` can fail: the partial records
accumulated so far survive, and the error message is surfaced
(`error.message || "An unexpected error stopped the benchmark."`). -/
def runRounds (endpoints : List Endpoint) (env : Nat → String → FetchSpec)
    (draws : Nat → List Nat) (abort : Option (Nat × String)) :
    Nat → Nat → List RunResult → List RunResult × Option String
  | _, 0, acc => (acc, none)
  | i, n + 1, acc =>
    match abort with
    | some (j, m) =>
      if j = i then
        (acc, some (if m = "" then "An unexpected error stopped the benchmark." else m))
      else
        runRounds endpoints env draws abort (i + 1) n
          (acc ++ [finalRound endpoints env draws i])
    | none =>
      runRounds endpoints env draws abort (i + 1) n
        (acc ++ [finalRound endpoints env draws i])

/-- The reactive globals `runBenchmark` mutates. -/
structure BenchState where
  benchmarkRuns : List RunResult
  isLoading : Bool
  overallError : Option String
  averageResults : List (String × AverageResult)
  deriving Repr, DecidableEq

/-- The synchronous reset prelude of `runBenchmark` (lines
`isLoading = true; overallError = null; benchmarkRuns = [];
averageResults = { ...initialAverageResults }`): it runs unconditionally,
without any re-entrancy check on the previous state. -/
def resetStateFor (endpoints : List Endpoint) : BenchState :=
  { benchmarkRuns := [], isLoading := true, overallError := none,
    averageResults := initialAverageResultsFor endpoints }

/-- `runBenchmark` from the page controller.  The result does not depend
on the previous state `s`: the function resets everything first.  In the
`finally` block `isLoading` is cleared, and `calculateAverages` runs only
when no orchestration-fatal error was recorded. -/
def runBenchmark (endpoints : List Endpoint) (env : Nat → String → FetchSpec)
    (draws : Nat → List Nat) (abort : Option (Nat × String))
    (_s : BenchState) : BenchState :=
  let s0 := resetStateFor endpoints
  match runRounds endpoints env draws abort 0 RUN_COUNT s0.benchmarkRuns with
  | (runs, none) =>
    { benchmarkRuns := runs, isLoading := false, overallError := none,
      averageResults := calculateAverages endpoints runs s0.averageResults }
  | (runs, some msg) =>
    { benchmarkRuns := runs, isLoading := false, overallError := some msg,
      averageResults := s0.averageResults }

/-- The run button: `disabled={isLoading}` in the markup, and a disabled
button fires no click event, so the handler `runBenchmark` is only
invoked when `isLoading` is false. -/
def buttonClick (endpoints : List Endpoint) (env : Nat → String → FetchSpec)
    (draws : Nat → List Nat) (abort : Option (Nat × String))
    (s : BenchState) : BenchState :=
  if s.isLoading then s else runBenchmark endpoints env draws abort s

/-- A tiny heap of JS arrays, to make in-place mutation and aliasing
expressible: an address is an index into the heap, and the registry
constant `ENDPOINTS` lives at a fixed address. -/
def heapGet (h : List (List Endpoint)) (a : Nat) : List Endpoint :=
  (h[a]?).getD []

/-- `shuffleArray` *mutates its argument in place*: the array at address
`a` is overwritten with its shuffle. -/
def shuffleArrayAt (h : List (List Endpoint)) (a : Nat) (ds : List Nat) :
    List (List Endpoint) :=
  h.set a (shuffleArray (heapGet h a) ds)

/-- The per-round call `shuffleArray([...ENDPOINTS])`: a fresh array is
allocated at a new address, the registry's contents are copied into it,
and the copy — not the registry — is shuffled in place. -/
def roundShuffleAlloc (h : List (List Endpoint)) (registryAddr : Nat)
    (ds : List Nat) : List (List Endpoint) × Nat :=
  let copyAddr := h.length
  (shuffleArrayAt (h ++ [heapGet h registryAddr]) copyAddr ds, copyAddr)

/-- All the shuffles a benchmark run performs against the registry at
address `registryAddr`, one per round. -/
def runShuffles (h : List (List Endpoint)) (registryAddr : Nat)
    (dss : List (List Nat)) : List (List Endpoint) :=
  dss.foldl (fun hh ds => (roundShuffleAlloc hh registryAddr ds).1) h

/-- A success-status body that reports an application error but carries
neither a numeric `timeMs` nor a string `binding`. -/
def c3Body : ParsedBody := { timeMs := none, binding := none, error := some "db failed" }

/-- A fetch behaviour delivering `c3Body` with HTTP 200. -/
def c3Spec : FetchSpec :=
  { outcome := .response 200 "OK" { text := some "", json := some c3Body },
    tHeaders := 120, tCatch := 125 }

/-- The body of a failed HTTP response whose text reads successfully. -/
def c5Body : BodyOutcome := { text := some "boom", json := none }

/-- A fetch behaviour with a non-success status. -/
def c5Spec : FetchSpec :=
  { outcome := .response 500 "Internal Server Error" c5Body, tHeaders := 6, tCatch := 7 }

/-- A fetch behaviour whose promise rejects (transport failure). -/
def rejectSpec : FetchSpec :=
  { outcome := .reject "network down", tHeaders := 3, tCatch := 4 }

/-- An environment in which every request of every round fails at the
transport layer. -/
def allRejectEnv : Nat → String → FetchSpec := fun _ _ => rejectSpec

/-- A draw stream with no draws (the shuffle then leaves the order as
is). -/
def noDraws : Nat → List Nat := fun _ => []

/-- A marker record left over from a previous, still running invocation. -/
def c8Marker : RunResult := { runId := 42, results := [] }

/-- A state in the middle of a run: `isLoading` is set and one round has
been published. -/
def c8State : BenchState :=
  { benchmarkRuns := [c8Marker], isLoading := true, overallError := none,
    averageResults := initialAverageResultsFor ENDPOINTS }

end Bunvhd

namespace Bunvhd

/-- The accumulation loop of `calculateAverages` computes exactly the sums
and counts of the qualifying client/server samples. -/
theorem accum_foldl (l : List RunResult) (id : String) (a : Acc) :
    l.foldl (fun acc run => accumStep acc (run.results.lookup id)) a =
      { totalClientTime := a.totalClientTime + (l.filterMap (clientSample · id)).sum,
        validClientCount := a.validClientCount + (l.filterMap (clientSample · id)).length,
        totalServerTime := a.totalServerTime + (l.filterMap (serverSample · id)).sum,
        validServerCount := a.validServerCount + (l.filterMap (serverSample · id)).length } := by
  induction l generalizing a with
  | nil => simp
  | cons run t ih =>
    rw [List.foldl_cons, ih]
    rcases h : run.results.lookup id with _ | res
    · simp [accumStep, clientSample, serverSample, h]
    · rcases herr : res.error with _ | e
      · rcases hc : res.clientTime with _ | c <;> rcases hs : res.serverTime with _ | s <;>
          simp [accumStep, clientSample, serverSample, h, herr, hc, hs, add_assoc,
            Nat.add_comm 1]
      · simp [accumStep, clientSample, serverSample, h, herr]

/-- The two branch shapes for an average agree. -/
theorem mean_if_eq (s : ℚ) (n : Nat) :
    (if 0 < n then some (s / (n : ℚ)) else none) =
      (if n = 0 then none else some (s / (n : ℚ))) := by
  cases n <;> simp

/-- `endpointAverage` computes the spec-side means of the qualifying
samples. -/
theorem endpointAverage_eq_spec (relevantRuns : List RunResult) (id : String) :
    endpointAverage relevantRuns id =
      { avgClientTime := specMean (relevantRuns.filterMap (clientSample · id)),
        avgServerTime := specMean (relevantRuns.filterMap (serverSample · id)) } := by
  unfold endpointAverage specMean
  rw [accum_foldl]
  simp [mean_if_eq]

/-- C1: on a completed sequence of `RUN_COUNT` RunRecords,
`calculateAverages` yields, for each endpoint, the mean of the qualifying
client times and (independently) the mean of the qualifying server times
over the rounds with `runId ≥ 2` only — an entry qualifies when its
`error` is null and the metric's value is numerically present — with
`none` for a metric with zero qualifying samples; and on the spec's worked
example it yields `A.avgClient = 42.5`, `A.avgServer = 8.5`,
`B.avgClient = 70`, `B.avgServer = 6`. -/
theorem C1_calculateAverages_means :
    (∀ (endpoints : List Endpoint) (runs : List RunResult)
        (avgs : List (String × AverageResult)),
        RUN_COUNT ≤ runs.length →
        (∃ r ∈ runs, 2 ≤ r.runId) →
        calculateAverages endpoints runs avgs =
          endpoints.map fun ep =>
            (ep.id, { avgClientTime := specMean (specClientSamples runs ep.id),
                      avgServerTime := specMean (specServerSamples runs ep.id) })) ∧
    calculateAverages exampleRegistry exampleRuns
        (initialAverageResultsFor exampleRegistry) =
      [("A", { avgClientTime := some (85/2), avgServerTime := some (17/2) }),
       ("B", { avgClientTime := some 70, avgServerTime := some 6 })] := by
  constructor
  · intro endpoints runs avgs hlen hrel
    unfold calculateAverages
    rw [if_neg (Nat.not_lt.mpr hlen)]
    have hne : (runs.filter fun run => 2 ≤ run.runId).length ≠ 0 := by
      obtain ⟨r, hr, h2⟩ := hrel
      have : r ∈ runs.filter fun run => 2 ≤ run.runId := by
        simp [List.mem_filter, hr, h2]
      intro hzero
      rw [List.length_eq_zero] at hzero
      simp [hzero] at this
    rw [if_neg hne]
    apply List.map_congr_left
    intro ep _
    rw [endpointAverage_eq_spec]
    rfl
  · show calculateAverages _ _ _ = _
    rw [calculateAverages, if_neg (by decide : ¬ (exampleRuns.length < RUN_COUNT))]
    have hlen2 : ((exampleRuns.filter fun run => 2 ≤ run.runId)).length = 2 := by decide
    simp only [hlen2]
    rw [if_neg (by decide : ¬ ((2:Nat) = 0))]
    have hCA : ((exampleRuns.filter fun run => 2 ≤ run.runId)).filterMap
        (clientSample · "A") = [40, 45] := by decide
    have hSA : ((exampleRuns.filter fun run => 2 ≤ run.runId)).filterMap
        (serverSample · "A") = [8, 9] := by decide
    have hCB : ((exampleRuns.filter fun run => 2 ≤ run.runId)).filterMap
        (clientSample · "B") = [70] := by decide
    have hSB : ((exampleRuns.filter fun run => 2 ≤ run.runId)).filterMap
        (serverSample · "B") = [6] := by decide
    show exampleRegistry.map _ = _
    simp only [exampleRegistry, List.map_cons, List.map_nil, endpointAverage_eq_spec]
    rw [hCA, hSA, hCB, hSB]
    norm_num [specMean]

/-- Witness for C1: the general component applied to the worked example. -/
theorem C1_witness :
    calculateAverages exampleRegistry exampleRuns
        (initialAverageResultsFor exampleRegistry) =
      exampleRegistry.map (fun ep =>
        (ep.id, { avgClientTime := specMean (specClientSamples exampleRuns ep.id),
                  avgServerTime := specMean (specServerSamples exampleRuns ep.id) })) :=
  C1_calculateAverages_means.1 exampleRegistry exampleRuns
    (initialAverageResultsFor exampleRegistry) (by decide) (by decide)

/-- C6: with fewer than `RUN_COUNT` RunRecords, `calculateAverages`
declines to compute and returns the average results unchanged. -/
theorem C6_calculateAverages_declines (endpoints : List Endpoint)
    (runs : List RunResult) (avgs : List (String × AverageResult))
    (h : runs.length < RUN_COUNT) :
    calculateAverages endpoints runs avgs = avgs := by
  unfold calculateAverages
  rw [if_pos h]

/-- Witness for C6: two of three rounds present leaves the all-null reset
averages untouched. -/
theorem C6_witness :
    calculateAverages exampleRegistry (exampleRuns.take 2)
        (initialAverageResultsFor exampleRegistry) =
      initialAverageResultsFor exampleRegistry :=
  C6_calculateAverages_declines exampleRegistry (exampleRuns.take 2)
    (initialAverageResultsFor exampleRegistry) (by decide)

/-- `String.append` concatenates the underlying character lists. -/
theorem string_data_append (a b : String) : (a ++ b).data = a.data ++ b.data := rfl

/-- The HTTP error message built by `measureFetch` is never the empty
string (it starts with `"HTTP "`), so the `error.message ||` fallback
does not replace it. -/
theorem httpMessage_ne_empty (s₁ s₂ s₃ : String) :
    ("HTTP " ++ s₁ ++ " " ++ s₂ ++ ": " ++ s₃) ≠ "" := by
  intro h
  have hd := congrArg String.data h
  simp [string_data_append, List.append_eq_nil] at hd

/-- C3 counterexample: a 200-status body carrying `error = "db failed"`
but no numeric `timeMs` and no string `binding` is rejected by the
structural validation; its own error is not passed through. -/
theorem C3_counterexample :
    measureFetch c3Spec =
      { clientTime := some 125, serverTime := none, binding := some "Error",
        error := some "Invalid response structure (missing timeMs or binding)." } ∧
    (measureFetch c3Spec).error ≠ some "db failed" := by
  constructor
  · decide
  · decide

/-- C3 amended: for every success-status response whose parsed body lacks
a numeric `timeMs` or a string `binding`, `measureFetch` produces the
structural-validation error result even when the body's own `error`
field is non-null — the body's error is passed through only when both
required fields are present. -/
theorem C3_structural_validation_unconditional (f : FetchSpec) (status : Nat)
    (statusText : String) (body : BodyOutcome) (j : ParsedBody)
    (hout : f.outcome = .response status statusText body)
    (hok : statusOk status = true)
    (hjson : body.json = some j)
    (hmiss : j.timeMs = none ∨ j.binding = none) :
    measureFetch f =
      { clientTime := some f.tCatch, serverTime := none, binding := some "Error",
        error := some "Invalid response structure (missing timeMs or binding)." } := by
  unfold measureFetch measureFetchTry
  rw [hout]
  rcases hmiss with h | h
  · rcases hb : j.binding with _ | b <;> simp [hok, hjson, h, hb]
  · rcases ht : j.timeMs with _ | t <;> simp [hok, hjson, h, ht]

/-- Witness for the amended C3: the counterexample body goes through the
structural-error branch. -/
theorem C3_witness :
    measureFetch c3Spec =
      { clientTime := some 125, serverTime := none, binding := some "Error",
        error := some "Invalid response structure (missing timeMs or binding)." } :=
  C3_structural_validation_unconditional c3Spec 200 "OK"
    { text := some "", json := some c3Body } c3Body rfl (by decide) rfl
    (Or.inl rfl)

/-- C5: on a non-success HTTP status whose body text reads successfully,
`measureFetch` returns an error result whose message carries the body
text truncated to at most 200 characters, with `serverTime = none`,
`binding = "Error"`, and `clientTime` the elapsed time up to the
failure. -/
theorem C5_http_error_result (f : FetchSpec) (status : Nat) (statusText : String)
    (body : BodyOutcome) (bodyText : String)
    (hout : f.outcome = .response status statusText body)
    (hstatus : statusOk status = false)
    (htext : body.text = some bodyText) :
    measureFetch f =
      { clientTime := some f.tCatch, serverTime := none, binding := some "Error",
        error := some ("HTTP " ++ toString status ++ " " ++ statusText ++ ": " ++
          truncate200 bodyText) } ∧
    (truncate200 bodyText).length ≤ 200 := by
  constructor
  · unfold measureFetch measureFetchTry
    rw [hout]
    simp only [hstatus, Bool.not_false, if_pos, htext, Option.getD_some]
    rw [if_neg (httpMessage_ne_empty _ _ _)]
  · show (String.mk (bodyText.data.take 200)).length ≤ 200
    have : (String.mk (bodyText.data.take 200)).length = (bodyText.data.take 200).length := rfl
    rw [this, List.length_take]
    exact min_le_left _ _

/-- Witness for C5: a concrete 500 response. -/
theorem C5_witness :
    measureFetch c5Spec =
      { clientTime := some 7, serverTime := none, binding := some "Error",
        error := some ("HTTP " ++ toString 500 ++ " " ++ "Internal Server Error" ++
          ": " ++ truncate200 "boom") } ∧
    (truncate200 "boom").length ≤ 200 :=
  C5_http_error_result c5Spec 500 "Internal Server Error" c5Body "boom" rfl
    (by decide) rfl

/-- Putting an element back where it was taken from, head first, is a
permutation. -/
theorem cons_set_perm {α : Type _} :
    ∀ (t : List α) (j : Nat) (a b : α), t[j]? = some b →
      (b :: t.set j a).Perm (a :: t) := by
  intro t
  induction t with
  | nil => intro j a b h; simp at h
  | cons c t ih =>
    intro j a b h
    cases j with
    | zero =>
      rw [List.getElem?_cons_zero, Option.some.injEq] at h
      subst h
      rw [List.set_cons_zero]
      exact List.Perm.swap a c t
    | succ j =>
      rw [List.getElem?_cons_succ] at h
      rw [List.set_cons_succ]
      exact ((List.Perm.swap c b _).trans ((ih j a b h).cons c)).trans
        (List.Perm.swap a c t)

/-- Exchanging the elements at two in-bound positions is a permutation. -/
theorem set_set_perm {α : Type _} :
    ∀ (l : List α) (i j : Nat) (a b : α), l[i]? = some a → l[j]? = some b →
      ((l.set i b).set j a).Perm l := by
  intro l
  induction l with
  | nil => intro i j a b hi _; simp at hi
  | cons c t ih =>
    intro i j a b hi hj
    cases i with
    | zero =>
      rw [List.getElem?_cons_zero, Option.some.injEq] at hi
      subst hi
      cases j with
      | zero =>
        rw [List.getElem?_cons_zero, Option.some.injEq] at hj
        subst hj
        rw [List.set_cons_zero, List.set_cons_zero]
      | succ j =>
        rw [List.getElem?_cons_succ] at hj
        rw [List.set_cons_zero, List.set_cons_succ]
        exact cons_set_perm t j c b hj
    | succ i =>
      rw [List.getElem?_cons_succ] at hi
      cases j with
      | zero =>
        rw [List.getElem?_cons_zero, Option.some.injEq] at hj
        subst hj
        rw [List.set_cons_succ, List.set_cons_zero]
        exact cons_set_perm t i c a hi
      | succ j =>
        rw [List.getElem?_cons_succ] at hj
        rw [List.set_cons_succ, List.set_cons_succ]
        exact (ih i j a b hi hj).cons c

/-- The destructuring swap always returns a permutation of its input. -/
theorem listSwap_perm {α : Type _} (l : List α) (i j : Nat) :
    (listSwap l i j).Perm l := by
  unfold listSwap
  cases hi : l[i]? with
  | none => cases hj : l[j]? <;> simp
  | some a =>
    cases hj : l[j]? with
    | none => simp
    | some b => simpa using set_set_perm l i j a b hi hj

/-- Every pass of the shuffle loop returns a permutation of its input,
whatever the draws. -/
theorem fyLoop_perm {α : Type _} :
    ∀ (ci : Nat) (arr : List α) (ds : List Nat), (fyLoop arr ci ds).Perm arr := by
  intro ci
  induction ci with
  | zero => intro arr ds; rw [fyLoop]
  | succ ci ih =>
    intro arr ds
    cases ds with
    | nil => rw [fyLoop]
    | cons d ds =>
      rw [fyLoop]
      exact (ih (listSwap arr ci d) ds).trans (listSwap_perm arr ci d)

/-- `shuffleArray` returns a permutation of its input for every draw
sequence. -/
theorem shuffleArray_perm {α : Type _} (arr : List α) (ds : List Nat) :
    (shuffleArray arr ds).Perm arr :=
  fyLoop_perm arr.length arr ds

/-- The swap preserves the length. -/
theorem listSwap_length {α : Type _} (l : List α) (i j : Nat) :
    (listSwap l i j).length = l.length := by
  unfold listSwap
  cases l[i]? <;> cases l[j]? <;> simp

/-- A swap of two positions below `k` leaves the suffix from `k` on
untouched. -/
theorem listSwap_drop {α : Type _} (l : List α) {i j k : Nat} (hik : i < k)
    (hjk : j < k) : (listSwap l i j).drop k = l.drop k := by
  unfold listSwap
  cases l[i]? <;> cases l[j]? <;> try rfl
  rw [List.drop_set, if_pos hjk, List.drop_set, if_pos hik]

/-- A swap of two positions below `k` commutes with taking the first `k`
elements. -/
theorem listSwap_take {α : Type _} (l : List α) {i j k : Nat} (hik : i < k)
    (hjk : j < k) : (listSwap l i j).take k = listSwap (l.take k) i j := by
  unfold listSwap
  rw [List.getElem?_take_of_lt hik, List.getElem?_take_of_lt hjk]
  cases l[i]? <;> cases l[j]? <;> simp [List.set_take]

/-- After the swap at loop state `ci + 1`, position `ci` holds the drawn
element. -/
theorem listSwap_getElem_fst {α : Type _} (arr : List α) (ci d : Nat)
    (hci : ci < arr.length) (hd2 : d < arr.length) :
    (listSwap arr ci d)[ci]? = arr[d]? := by
  unfold listSwap
  rw [List.getElem?_eq_getElem hci, List.getElem?_eq_getElem hd2]
  by_cases hdc : d = ci
  · subst hdc
    exact List.getElem?_set_self (by simpa using hd2)
  · rw [List.getElem?_set_ne hdc, List.getElem?_set_self hci]

/-- Membership in the valid draw sequences for `n + 1`. -/
theorem mem_validDraws_succ {n : Nat} {ds : List Nat} :
    ds ∈ validDraws (n + 1) ↔
      ∃ d t, ds = d :: t ∧ d < n + 1 ∧ t ∈ validDraws n := by
  rw [validDraws]
  simp only [List.mem_flatMap, List.mem_map, List.mem_range]
  constructor
  · rintro ⟨d, hd, t, ht, rfl⟩
    exact ⟨d, t, rfl, hd, ht⟩
  · rintro ⟨d, t, rfl, hd, ht⟩
    exact ⟨d, hd, t, ht, rfl⟩

/-- The valid draw sequences are pairwise distinct. -/
theorem validDraws_nodup : ∀ n : Nat, (validDraws n).Nodup := by
  intro n
  induction n with
  | zero => simp [validDraws]
  | succ n ih =>
    rw [validDraws]
    refine List.nodup_flatMap.mpr ⟨fun d _ => ih.map fun t t2 h => ?_, ?_⟩
    · injection h
    · refine (List.nodup_range (n + 1)).imp fun hne x hx hx2 => ?_
      obtain ⟨t, _, rfl⟩ := List.mem_map.mp hx
      obtain ⟨t2, _, ht2⟩ := List.mem_map.mp hx2
      exact hne (List.head_eq_of_cons_eq ht2.symm ▸ rfl)

/-- The shuffle loop with a valid draw sequence never touches positions
at or beyond the starting index. -/
theorem fyLoop_drop {α : Type _} :
    ∀ (ci : Nat) (arr : List α) (ds : List Nat), ds ∈ validDraws ci →
      (fyLoop arr ci ds).drop ci = arr.drop ci := by
  intro ci
  induction ci with
  | zero => intro arr ds _; rw [fyLoop]
  | succ ci ih =>
    intro arr ds hds
    obtain ⟨d, t, rfl, hd, ht⟩ := mem_validDraws_succ.mp hds
    rw [fyLoop]
    have e : ∀ y : List α, y.drop (ci + 1) = (y.drop ci).drop 1 := fun y => by
      rw [List.drop_drop]
    rw [e, ih (listSwap arr ci d) t ht, ← e,
      listSwap_drop arr (Nat.lt_succ_self ci) hd]

/-- After one step of the loop, the element the draw selected sits at the
now-frozen position `ci` of the final result. -/
theorem fyLoop_succ_getElem {α : Type _} (ci : Nat) (arr : List α) (d : Nat)
    (t : List Nat) (ht : t ∈ validDraws ci) (hci : ci < arr.length)
    (hd : d < ci + 1) :
    (fyLoop arr (ci + 1) (d :: t))[ci]? = arr[d]? := by
  rw [fyLoop, ← List.head?_drop, fyLoop_drop ci (listSwap arr ci d) t ht,
    List.head?_drop,
    listSwap_getElem_fst arr ci d hci (Nat.lt_of_lt_of_le hd hci)]

/-- On a duplicate-free array, distinct valid draw sequences produce
distinct shuffles. -/
theorem fyLoop_inj {α : Type _} :
    ∀ (ci : Nat) (arr : List α), ci ≤ arr.length → arr.Nodup →
      ∀ ds ∈ validDraws ci, ∀ ds2 ∈ validDraws ci,
        fyLoop arr ci ds = fyLoop arr ci ds2 → ds = ds2 := by
  intro ci
  induction ci with
  | zero =>
    intro arr _ _ ds hds ds2 hds2 _
    simp only [validDraws, List.mem_singleton] at hds hds2
    rw [hds, hds2]
  | succ ci ih =>
    intro arr hlen hnd ds hds ds2 hds2 heq
    obtain ⟨d, t, rfl, hd, ht⟩ := mem_validDraws_succ.mp hds
    obtain ⟨d2, t2, rfl, hd2, ht2⟩ := mem_validDraws_succ.mp hds2
    have hci : ci < arr.length := Nat.lt_of_lt_of_le (Nat.lt_succ_self ci) hlen
    have e : arr[d]? = arr[d2]? := by
      rw [← fyLoop_succ_getElem ci arr d t ht hci hd,
        ← fyLoop_succ_getElem ci arr d2 t2 ht2 hci hd2, heq]
    have hdlen : d < arr.length := Nat.lt_of_lt_of_le hd hlen
    have hd2len : d2 < arr.length := Nat.lt_of_lt_of_le hd2 hlen
    rw [List.getElem?_eq_getElem hdlen, List.getElem?_eq_getElem hd2len,
      Option.some.injEq] at e
    have hdd : d = d2 := (List.Nodup.getElem_inj_iff hnd).mp e
    subst hdd
    rw [fyLoop, fyLoop] at heq
    have htt : t = t2 :=
      ih (listSwap arr ci d) (by rw [listSwap_length]; exact Nat.le_of_succ_le hlen)
        ((listSwap_perm arr ci d).symm.nodup hnd) t ht t2 ht2 heq
    rw [htt]

/-- Every rearrangement of the first `ci` positions is reached by some
valid draw sequence. -/
theorem fyLoop_surj {α : Type _} :
    ∀ (ci : Nat) (arr l : List α), ci ≤ arr.length → l.length = arr.length →
      (l.take ci).Perm (arr.take ci) → l.drop ci = arr.drop ci →
      ∃ ds ∈ validDraws ci, fyLoop arr ci ds = l := by
  intro ci
  induction ci with
  | zero =>
    intro arr l _ _ _ hdrop
    refine ⟨[], by simp [validDraws], ?_⟩
    rw [fyLoop]
    simpa using hdrop.symm
  | succ ci ih =>
    intro arr l hlen hlength htake hdrop
    have hci : ci < arr.length := hlen
    have hcil : ci < l.length := by rw [hlength]; exact hci
    have hmem : l.get ⟨ci, hcil⟩ ∈ arr.take (ci + 1) := by
      refine htake.mem_iff.mp ?_
      have hts : (l.take (ci + 1))[ci]? = l[ci]? := List.getElem?_take_of_succ
      refine List.mem_iff_getElem?.mpr ⟨ci, ?_⟩
      rw [hts, List.getElem?_eq_getElem hcil]
      rfl
    obtain ⟨d, hdlt, hdeq⟩ := List.mem_iff_getElem.mp hmem
    have hdci : d < ci + 1 := Nat.lt_of_lt_of_le hdlt
      (by rw [List.length_take]; exact min_le_left _ _)
    have hdarr : d < arr.length :=
      Nat.lt_of_lt_of_le hdci hlen
    have hdval : arr.get ⟨d, hdarr⟩ = l.get ⟨ci, hcil⟩ := by
      rw [← hdeq]
      exact (List.getElem_take arr).symm
    have harr2len : (listSwap arr ci d).length = arr.length := listSwap_length _ _ _
    have harr2ci : (listSwap arr ci d)[ci]? = some (l.get ⟨ci, hcil⟩) := by
      rw [listSwap_getElem_fst arr ci d hci hdarr,
        List.getElem?_eq_getElem hdarr]
      exact congrArg some hdval
    have hdropsucc : l.drop (ci + 1) = (listSwap arr ci d).drop (ci + 1) := by
      rw [listSwap_drop arr (Nat.lt_succ_self ci) hdci]
      exact hdrop
    have hdropci : l.drop ci = (listSwap arr ci d).drop ci := by
      have hcil2 : ci < (listSwap arr ci d).length := by rw [harr2len]; exact hci
      rw [List.drop_eq_getElem_cons hcil, List.drop_eq_getElem_cons hcil2]
      have h2 : (listSwap arr ci d).get ⟨ci, hcil2⟩ = l.get ⟨ci, hcil⟩ := by
        have h3 := harr2ci
        rw [List.getElem?_eq_getElem hcil2, Option.some.injEq] at h3
        exact h3
      rw [hdropsucc]
      congr 1
      exact h2.symm
    have htakeci : (l.take ci).Perm ((listSwap arr ci d).take ci) := by
      have hswap : ((listSwap arr ci d).take (ci + 1)).Perm (arr.take (ci + 1)) := by
        rw [listSwap_take arr (Nat.lt_succ_self ci) hdci]
        exact listSwap_perm _ _ _
      have h1 : (l.take (ci + 1)).Perm ((listSwap arr ci d).take (ci + 1)) :=
        htake.trans hswap.symm
      have e1 : l.take (ci + 1) = l.take ci ++ [l.get ⟨ci, hcil⟩] := by
        rw [List.take_succ, List.getElem?_eq_getElem hcil]
        rfl
      have hcil2 : ci < (listSwap arr ci d).length := by rw [harr2len]; exact hci
      have e2 : (listSwap arr ci d).take (ci + 1) =
          (listSwap arr ci d).take ci ++ [l.get ⟨ci, hcil⟩] := by
        rw [List.take_succ, harr2ci]
        rfl
      rw [e1, e2] at h1
      exact (List.perm_append_right_iff _).mp h1
    obtain ⟨ds, hds, hfy⟩ := ih (listSwap arr ci d) l
      (by rw [harr2len]; exact Nat.le_of_succ_le hlen)
      (by rw [harr2len]; exact hlength) htakeci hdropci
    refine ⟨d :: ds, mem_validDraws_succ.mpr ⟨d, ds, rfl, hdci, hds⟩, ?_⟩
    rw [fyLoop]
    exact hfy

/-- Counting preimages of an injective function over a duplicate-free
list: each target is hit at most once. -/
theorem filter_count_of_inj {β γ : Type _} [DecidableEq γ] :
    ∀ (L : List β) (f : β → γ) (t : γ), L.Nodup →
      (∀ x ∈ L, ∀ y ∈ L, f x = f y → x = y) →
      (L.filter fun x => f x = t).length = if ∃ x ∈ L, f x = t then 1 else 0 := by
  intro L
  induction L with
  | nil => intro f t _ _; simp
  | cons x L ih =>
    intro f t hnd hinj
    by_cases hfx : f x = t
    · have hLnil : (L.filter fun y => f y = t) = [] := by
        rw [List.filter_eq_nil_iff]
        intro y hy hfy
        have : y = x := hinj y (List.mem_cons_of_mem x hy) x (List.mem_cons_self x L)
          (by rw [decide_eq_true_iff] at hfy; rw [hfy, hfx])
        rw [this] at hy
        exact (List.nodup_cons.mp hnd).1 hy
      rw [List.filter_cons_of_pos (by rw [decide_eq_true_iff]; exact hfx), hLnil,
        if_pos ⟨x, List.mem_cons_self x L, hfx⟩]
      rfl
    · rw [List.filter_cons_of_neg (by rw [decide_eq_true_iff]; exact hfx)]
      rw [ih f t (List.nodup_cons.mp hnd).2
        (fun a ha b hb => hinj a (List.mem_cons_of_mem x ha) b (List.mem_cons_of_mem x hb))]
      by_cases hex : ∃ y ∈ L, f y = t
      · have hex2 : ∃ y ∈ x :: L, f y = t := by
          obtain ⟨y, hy, hfy⟩ := hex
          exact ⟨y, List.mem_cons_of_mem x hy, hfy⟩
        rw [if_pos hex, if_pos hex2]
      · have hnotex : ¬ ∃ y ∈ x :: L, f y = t := by
          rintro ⟨y, hy, hfy⟩
          rcases List.mem_cons.mp hy with rfl | hy2
          · exact hfx hfy
          · exact hex ⟨y, hy2, hfy⟩
        rw [if_neg hex, if_neg hnotex]

/-- The shuffle's image over the valid draw sequences is exactly the set
of permutations of the input. -/
theorem shuffleArray_image {α : Type _} (arr l : List α) :
    (∃ ds ∈ validDraws arr.length, shuffleArray arr ds = l) ↔ arr.Perm l := by
  constructor
  · rintro ⟨ds, _, rfl⟩
    exact (shuffleArray_perm arr ds).symm
  · intro hperm
    have hlen : l.length = arr.length := hperm.symm.length_eq
    refine fyLoop_surj arr.length arr l (Nat.le_refl _) hlen ?_ ?_
    · rw [List.take_of_length_le (Nat.le_of_eq hlen), List.take_length]
      exact hperm.symm
    · rw [List.drop_length, List.drop_of_length_le (Nat.le_of_eq hlen)]

/-- C4: `shuffleArray` always returns a permutation of its input, for
every array and every sequence of random index draws; and over the
uniform space of valid draw sequences (independent uniform draws, the
Fisher–Yates distribution) each permutation of a duplicate-free input is
produced by exactly one draw sequence out of `n !`, hence with equal
probability. -/
theorem C4_shuffleArray_uniform_perm :
    (∀ {α : Type} (arr : List α) (ds : List Nat), (shuffleArray arr ds).Perm arr) ∧
    (∀ {α : Type} [DecidableEq α] (arr : List α), arr.Nodup → ∀ l : List α,
      ((validDraws arr.length).filter fun ds => shuffleArray arr ds = l).length =
        if arr.Perm l then 1 else 0) := by
  constructor
  · intro α arr ds
    exact shuffleArray_perm arr ds
  · intro α _ arr hnd l
    rw [filter_count_of_inj (validDraws arr.length) (fun ds => shuffleArray arr ds) l
      (validDraws_nodup arr.length)
      (fun x hx y hy h => fyLoop_inj arr.length arr (Nat.le_refl _) hnd x hx y hy h)]
    by_cases hp : arr.Perm l
    · rw [if_pos ((shuffleArray_image arr l).mpr hp), if_pos hp]
    · rw [if_neg (fun hx => hp ((shuffleArray_image arr l).mp hx)), if_neg hp]

/-- Witness for C4: a concrete shuffle is a permutation, and for the
duplicate-free array `[10, 20, 30]` the target permutation `[30, 10, 20]`
is produced by exactly one of the six valid draw sequences. -/
theorem C4_witness :
    (shuffleArray [10, 20, 30] [0, 1]).Perm [10, 20, 30] ∧
    ((validDraws (([10, 20, 30] : List Nat)).length).filter
        fun ds => shuffleArray [10, 20, 30] ds = [30, 10, 20]).length = 1 := by
  constructor
  · exact C4_shuffleArray_uniform_perm.1 [10, 20, 30] [0, 1]
  · have h := C4_shuffleArray_uniform_perm.2 [10, 20, 30] (by decide) [30, 10, 20]
    rw [h, if_pos (by decide)]

/-- Without an orchestration fault, the round loop runs to completion and
publishes one final record per round. -/
theorem runRounds_none (endpoints : List Endpoint) (env : Nat → String → FetchSpec)
    (draws : Nat → List Nat) :
    ∀ (n i : Nat) (acc : List RunResult),
      runRounds endpoints env draws none i n acc =
        (acc ++ (List.range' i n).map (finalRound endpoints env draws), none) := by
  intro n
  induction n with
  | zero =>
    intro i acc
    rw [runRounds]
    simp
  | succ n ih =>
    intro i acc
    rw [runRounds]
    show runRounds endpoints env draws none (i + 1) n
        (acc ++ [finalRound endpoints env draws i]) = _
    rw [ih (i + 1), List.range'_succ]
    simp [List.append_assoc]

/-- The final state of a completed (fault-free) benchmark run. -/
theorem runBenchmark_none (endpoints : List Endpoint) (env : Nat → String → FetchSpec)
    (draws : Nat → List Nat) (s : BenchState) :
    runBenchmark endpoints env draws none s =
      { benchmarkRuns := (List.range RUN_COUNT).map (finalRound endpoints env draws),
        isLoading := false, overallError := none,
        averageResults := calculateAverages endpoints
          ((List.range RUN_COUNT).map (finalRound endpoints env draws))
          (initialAverageResultsFor endpoints) } := by
  simp only [runBenchmark, resetStateFor]
  rw [runRounds_none endpoints env draws RUN_COUNT 0 [], List.range_eq_range']
  simp

/-- Looking an endpoint's id up in a record built by mapping over a
duplicate-free key list returns that endpoint's value. -/
theorem lookup_map_of_nodup {β : Type _} :
    ∀ (l : List Endpoint) (g : Endpoint → β), (l.map (·.id)).Nodup →
      ∀ ep ∈ l, (l.map fun e => (e.id, g e)).lookup ep.id = some (g ep) := by
  intro l
  induction l with
  | nil => intro g _ ep hep; simp at hep
  | cons e t ih =>
    intro g hnd ep hep
    rw [List.map_cons]
    rcases List.mem_cons.mp hep with rfl | hmem
    · simp [List.lookup]
    · have hne : ep.id ≠ e.id := by
        intro h
        have hm : ep.id ∈ t.map (·.id) := List.mem_map.mpr ⟨ep, hmem, rfl⟩
        rw [h] at hm
        exact (List.nodup_cons.mp (by simpa using hnd)).1 hm
      have hbeq : (ep.id == e.id) = false := beq_eq_false_iff_ne.mpr hne
      simp only [List.lookup, hbeq]
      exact ih g (by simpa using (List.nodup_cons.mp (by simpa using hnd)).2) ep hmem

/-- Shuffling preserves the duplicate-freeness of the endpoint ids. -/
theorem shuffle_ids_nodup (endpoints : List Endpoint) (ds : List Nat)
    (h : (endpoints.map (·.id)).Nodup) :
    ((shuffleArray endpoints ds).map (·.id)).Nodup :=
  (((shuffleArray_perm endpoints ds).map (·.id)).symm).nodup h

/-- Each endpoint's measurement of round `i` is found in the round's
final record under its id. -/
theorem finalRound_lookup (endpoints : List Endpoint) (env : Nat → String → FetchSpec)
    (draws : Nat → List Nat) (i : Nat) (hnd : (endpoints.map (·.id)).Nodup)
    (ep : Endpoint) (hep : ep ∈ endpoints) :
    (finalRound endpoints env draws i).results.lookup ep.id =
      some (measureFetch (env i ep.url)) := by
  unfold finalRound
  exact lookup_map_of_nodup (shuffleArray endpoints (draws i))
    (fun e => measureFetch (env i e.url))
    (shuffle_ids_nodup endpoints (draws i) hnd) ep
    ((shuffleArray_perm endpoints (draws i)).mem_iff.mpr hep)

/-- C2: `measureFetch` is a total function — every thrown error of the
try block (transport rejection, non-success status, unreadable or
malformed body) is converted by the catch handler into an error-shaped
`BenchmarkResult` — and consequently, for every behaviour of the
transport, the orchestration completes all `RUN_COUNT` rounds with no
overall error, every endpoint of every round having its measureFetch
result (error-shaped or not) recorded in the round's mapping. -/
theorem C2_measureFetch_never_throws :
    (∀ (f : FetchSpec) (message : String), measureFetchTry f = .error message →
      measureFetch f =
        { clientTime := some f.tCatch, serverTime := none, binding := some "Error",
          error := some (if message = "" then "Unknown fetch error" else message) }) ∧
    (∀ (env : Nat → String → FetchSpec) (draws : Nat → List Nat) (s : BenchState),
      (runBenchmark ENDPOINTS env draws none s).benchmarkRuns.length = RUN_COUNT ∧
      (runBenchmark ENDPOINTS env draws none s).overallError = none ∧
      ∀ i, i < RUN_COUNT → ∀ ep ∈ ENDPOINTS,
        ∃ run, (runBenchmark ENDPOINTS env draws none s).benchmarkRuns[i]? = some run ∧
          run.runId = i + 1 ∧
          run.results.lookup ep.id = some (measureFetch (env i ep.url))) := by
  constructor
  · intro f message h
    unfold measureFetch
    rw [h]
  · intro env draws s
    rw [runBenchmark_none]
    refine ⟨by simp, rfl, ?_⟩
    intro i hi ep hep
    refine ⟨finalRound ENDPOINTS env draws i, ?_, rfl, ?_⟩
    · rw [List.getElem?_map, List.getElem?_range hi]
      rfl
    · exact finalRound_lookup ENDPOINTS env draws i (by decide) ep hep

/-- Witness for C2: a transport rejection becomes an error-shaped result,
and in a run where every fetch rejects, round 1 still records a result
for the first registered endpoint. -/
theorem C2_witness :
    measureFetch rejectSpec =
      { clientTime := some 4, serverTime := none, binding := some "Error",
        error := some (if "network down" = "" then "Unknown fetch error"
          else "network down") } ∧
    ∃ run, (runBenchmark ENDPOINTS allRejectEnv noDraws none
        (resetStateFor ENDPOINTS)).benchmarkRuns[0]? = some run ∧
      run.runId = 0 + 1 ∧
      run.results.lookup (ENDPOINTS.get ⟨0, by decide⟩).id =
        some (measureFetch (allRejectEnv 0 (ENDPOINTS.get ⟨0, by decide⟩).url)) := by
  constructor
  · exact C2_measureFetch_never_throws.1 rejectSpec "network down" rfl
  · exact (C2_measureFetch_never_throws.2 allRejectEnv noDraws
      (resetStateFor ENDPOINTS)).2.2 0 (by decide) (ENDPOINTS.get ⟨0, by decide⟩)
      (by decide)

/-- C7: in every completed run the published records have runIds
`1 .. RUN_COUNT` in order, the placeholder record of each round maps
exactly the registered ids in registry order, and every final record's
key list is a permutation of the registered ids — same size as the
registry, each endpoint measured exactly once per round. -/
theorem C7_run_record_invariants :
    ∀ (env : Nat → String → FetchSpec) (draws : Nat → List Nat) (s : BenchState),
      ((runBenchmark ENDPOINTS env draws none s).benchmarkRuns.map (·.runId) =
        (List.range RUN_COUNT).map (· + 1)) ∧
      (∀ i : Nat, (placeholderRecord ENDPOINTS (i + 1)).results.map Prod.fst =
        ENDPOINTS.map (·.id)) ∧
      (∀ run ∈ (runBenchmark ENDPOINTS env draws none s).benchmarkRuns,
        (run.results.map Prod.fst).Perm (ENDPOINTS.map (·.id)) ∧
        run.results.length = ENDPOINTS.length ∧
        ∀ ep ∈ ENDPOINTS, (run.results.map Prod.fst).count ep.id = 1) := by
  intro env draws s
  rw [runBenchmark_none]
  refine ⟨?_, ?_, ?_⟩
  · simp [finalRound, List.map_map, Function.comp_def]
  · intro i
    simp [placeholderRecord, List.map_map, Function.comp_def]
  · intro run hrun
    simp only [List.mem_map, List.mem_range] at hrun
    obtain ⟨i, _, rfl⟩ := hrun
    have hkeys : ((finalRound ENDPOINTS env draws i).results.map Prod.fst) =
        (shuffleArray ENDPOINTS (draws i)).map (·.id) := by
      simp [finalRound, List.map_map, Function.comp_def]
    have hperm : ((finalRound ENDPOINTS env draws i).results.map Prod.fst).Perm
        (ENDPOINTS.map (·.id)) := by
      rw [hkeys]
      exact (shuffleArray_perm ENDPOINTS (draws i)).map _
    refine ⟨hperm, ?_, ?_⟩
    · have h1 := hperm.length_eq
      simpa using h1
    · intro ep hep
      rw [hperm.count_eq]
      exact List.count_eq_one_of_mem (by decide) (List.mem_map.mpr ⟨ep, hep, rfl⟩)

/-- Witness for C7: a concrete all-failing run still satisfies the round
invariants, in particular round 1's record keys are a permutation of the
registered ids. -/
theorem C7_witness :
    ((runBenchmark ENDPOINTS allRejectEnv noDraws none
        (resetStateFor ENDPOINTS)).benchmarkRuns.map (·.runId) =
      (List.range RUN_COUNT).map (· + 1)) ∧
    ((finalRound ENDPOINTS allRejectEnv noDraws 0).results.map Prod.fst).Perm
      (ENDPOINTS.map (·.id)) := by
  refine ⟨(C7_run_record_invariants allRejectEnv noDraws (resetStateFor ENDPOINTS)).1, ?_⟩
  exact ((C7_run_record_invariants allRejectEnv noDraws (resetStateFor ENDPOINTS)).2.2
    (finalRound ENDPOINTS allRejectEnv noDraws 0) (by decide)).1

/-- An orchestration fault injected at the start of round `k` stops the
loop there: the records of the `k` completed rounds survive and the
error message is surfaced. -/
theorem runRounds_abort (endpoints : List Endpoint) (env : Nat → String → FetchSpec)
    (draws : Nat → List Nat) (k : Nat) (m : String) :
    ∀ (n i : Nat) (acc : List RunResult), i ≤ k → k < i + n →
      runRounds endpoints env draws (some (k, m)) i n acc =
        (acc ++ (List.range' i (k - i)).map (finalRound endpoints env draws),
         some (if m = "" then "An unexpected error stopped the benchmark." else m)) := by
  intro n
  induction n with
  | zero =>
    intro i acc hik hki
    exact absurd hki (by omega)
  | succ n ih =>
    intro i acc hik hki
    rw [runRounds]
    by_cases hk : k = i
    · subst hk
      rw [if_pos rfl]
      simp [Nat.sub_self]
    · rw [if_neg hk]
      rw [ih (i + 1) _ (by omega) (by omega)]
      have hki3 : k - i = (k - (i + 1)) + 1 := by omega
      rw [hki3, List.range'_succ]
      simp [List.append_assoc]

/-- C10: when the orchestration loop aborts with a fatal error at the
start of round `k`, the overall error state is set, the averages remain
the all-null initial mapping established at run start, and the partial
records of the `k` completed rounds are retained. -/
theorem C10_abort_keeps_initial_averages (env : Nat → String → FetchSpec)
    (draws : Nat → List Nat) (s : BenchState) (k : Nat) (m : String)
    (hk : k < RUN_COUNT) :
    (runBenchmark ENDPOINTS env draws (some (k, m)) s).overallError ≠ none ∧
    (runBenchmark ENDPOINTS env draws (some (k, m)) s).averageResults =
      initialAverageResultsFor ENDPOINTS ∧
    (∀ p ∈ (runBenchmark ENDPOINTS env draws (some (k, m)) s).averageResults,
      p.2 = { avgClientTime := none, avgServerTime := none }) ∧
    (runBenchmark ENDPOINTS env draws (some (k, m)) s).benchmarkRuns =
      (List.range k).map (finalRound ENDPOINTS env draws) ∧
    (runBenchmark ENDPOINTS env draws (some (k, m)) s).benchmarkRuns.length = k := by
  simp only [runBenchmark, resetStateFor]
  rw [runRounds_abort ENDPOINTS env draws k m RUN_COUNT 0 [] (Nat.zero_le k)
    (by omega), List.range_eq_range']
  refine ⟨by simp, by simp, ?_, by simp, by simp⟩
  intro p hp
  simp only [initialAverageResultsFor, List.mem_map] at hp
  obtain ⟨ep, _, rfl⟩ := hp
  rfl

/-- Witness for C10: a fault injected before round 2 of an all-failing
run keeps the all-null averages and retains exactly round 1's record. -/
theorem C10_witness :
    (runBenchmark ENDPOINTS allRejectEnv noDraws (some (1, "boom"))
      (resetStateFor ENDPOINTS)).overallError ≠ none ∧
    (runBenchmark ENDPOINTS allRejectEnv noDraws (some (1, "boom"))
      (resetStateFor ENDPOINTS)).averageResults = initialAverageResultsFor ENDPOINTS ∧
    (∀ p ∈ (runBenchmark ENDPOINTS allRejectEnv noDraws (some (1, "boom"))
        (resetStateFor ENDPOINTS)).averageResults,
      p.2 = { avgClientTime := none, avgServerTime := none }) ∧
    (runBenchmark ENDPOINTS allRejectEnv noDraws (some (1, "boom"))
      (resetStateFor ENDPOINTS)).benchmarkRuns =
      (List.range 1).map (finalRound ENDPOINTS allRejectEnv noDraws) ∧
    (runBenchmark ENDPOINTS allRejectEnv noDraws (some (1, "boom"))
      (resetStateFor ENDPOINTS)).benchmarkRuns.length = 1 :=
  C10_abort_keeps_initial_averages allRejectEnv noDraws (resetStateFor ENDPOINTS)
    1 "boom" (by decide)

/-- C8 counterexample: `runBenchmark` itself has no re-entrancy guard.
Invoked on a state with `isLoading = true` left by a running invocation,
it still resets the published records (the marker run disappears) and
starts a full new run — refuting the claim that the second invocation
does not reset the state nor start a second run. -/
theorem C8_counterexample :
    c8State.isLoading = true ∧
    (runBenchmark ENDPOINTS allRejectEnv noDraws (some (0, "boom"))
      c8State).benchmarkRuns = [] ∧
    c8State.benchmarkRuns ≠ [] ∧
    (runBenchmark ENDPOINTS allRejectEnv noDraws none c8State).benchmarkRuns.length =
      RUN_COUNT := by
  refine ⟨rfl, by decide, by decide, by decide⟩

/-- C8 amended: the re-entrancy guard lives in the UI, not in
`runBenchmark` — the run button is disabled while `isLoading` is set, so
a click during a run never invokes the handler and leaves the state
unchanged. -/
theorem C8_guard_is_button_disabled (endpoints : List Endpoint)
    (env : Nat → String → FetchSpec) (draws : Nat → List Nat)
    (abort : Option (Nat × String)) (s : BenchState) (h : s.isLoading = true) :
    buttonClick endpoints env draws abort s = s := by
  unfold buttonClick
  rw [h]
  simp

/-- Witness for the amended C8: clicking the disabled button mid-run
changes nothing. -/
theorem C8_witness :
    buttonClick ENDPOINTS allRejectEnv noDraws none c8State = c8State :=
  C8_guard_is_button_disabled ENDPOINTS allRejectEnv noDraws none c8State rfl

/-- Each round allocates a fresh copy before shuffling, so the registry
entry of the heap is never overwritten. -/
theorem runShuffles_keeps_registry :
    ∀ (dss : List (List Nat)) (h : List (List Endpoint)), h ≠ [] →
      heapGet (runShuffles h 0 dss) 0 = heapGet h 0 := by
  intro dss
  induction dss with
  | nil => intro h _; rfl
  | cons ds dss ih =>
    intro h hne
    have hlen : h.length ≠ 0 := fun hz => hne (List.length_eq_zero.mp hz)
    show heapGet (runShuffles (roundShuffleAlloc h 0 ds).1 0 dss) 0 = heapGet h 0
    rw [ih (roundShuffleAlloc h 0 ds).1 ?_]
    · unfold roundShuffleAlloc shuffleArrayAt heapGet
      rw [List.getElem?_set_ne (fun hh => hlen hh), List.getElem?_append,
        if_pos (Nat.pos_of_ne_zero hlen)]
    · unfold roundShuffleAlloc shuffleArrayAt
      intro hnil
      have := congrArg List.length hnil
      simp at this

/-- C9: the registry array is never mutated by a benchmark run — even
though `shuffleArray` permutes its argument in place (second conjunct:
the array at the shuffled address is overwritten), every round shuffles
a fresh copy of the registry, so after any number of rounds the heap
entry holding `ENDPOINTS` still has its startup contents and order. -/
theorem C9_registry_never_mutated :
    (∀ dss : List (List Nat), heapGet (runShuffles [ENDPOINTS] 0 dss) 0 = ENDPOINTS) ∧
    (∀ (h : List (List Endpoint)) (a : Nat) (ds : List Nat), a < h.length →
      heapGet (shuffleArrayAt h a ds) a = shuffleArray (heapGet h a) ds) := by
  constructor
  · intro dss
    rw [runShuffles_keeps_registry dss [ENDPOINTS] (by simp)]
    rfl
  · intro h a ds ha
    unfold shuffleArrayAt heapGet
    rw [List.getElem?_set_self (by simpa using ha)]
    rfl

/-- Witness for C9: two rounds of concrete shuffles leave the registry
entry untouched, while the freshly allocated copy really is overwritten
in place. -/
theorem C9_witness :
    heapGet (runShuffles [ENDPOINTS] 0 [[1, 0], [2]]) 0 = ENDPOINTS ∧
    heapGet (shuffleArrayAt [ENDPOINTS] 0 [1, 0]) 0 =
      shuffleArray (heapGet [ENDPOINTS] 0) [1, 0] :=
  ⟨C9_registry_never_mutated.1 [[1, 0], [2]],
   C9_registry_never_mutated.2 [ENDPOINTS] 0 [1, 0] (by decide)⟩

end Bunvhd
